import Mathlib

set_option maxRecDepth 8000

/-
Verification of the browser-client services and components of the
Kubernetes CIS-benchmark compliance console against its natural-language
specification.  JavaScript values are modelled shallowly: strings as Lean
strings (lists of characters for scanning), possibly-absent values as
Option, and JS truthiness of a string-or-undefined value as "present and
non-empty".  Each definition mirrors one function of the source frontend.
-/

/-- JS truthiness of a string-or-undefined value: `undefined` and the
empty string are falsy, every other string is truthy. -/
def truthyS (o : Option String) : Bool :=
  match o with
  | none => false
  | some s => !s.isEmpty

/-- JS `a || b` on string-or-undefined values: the first operand when it
is truthy, otherwise the second operand unchanged. -/
def jsOr (a b : Option String) : Option String :=
  if truthyS a then a else b

/-- JS `a || d` where `d` is a (truthy) string default. -/
def jsOrStr (a : Option String) (d : String) : String :=
  match a with
  | none => d
  | some s => if s.isEmpty then d else s

/-- Whether the first character list is a leading segment of the second
(character-by-character comparison). -/
def isPrefOf : List Char → List Char → Bool
  | [], _ => true
  | _ :: _, [] => false
  | a :: as, b :: bs => a == b && isPrefOf as bs

/-- Whether `key` occurs as a contiguous substring of `s`. -/
def occursIn (key : List Char) (s : List Char) : Bool :=
  match s with
  | [] => isPrefOf key []
  | _ :: rest => isPrefOf key s || occursIn key rest

/-- JS `s.includes(sub)`. -/
def strIncludes (s sub : String) : Bool := occursIn sub.data s.data

/-- Fuel-indexed worker for `repAll`: replaces every non-overlapping
leftmost occurrence of `key` by `val`, scanning left to right.  The fuel
only serves to make the recursion structural; `repAll` supplies enough
fuel that it is never exhausted. -/
def repAllF : Nat → List Char → List Char → List Char → List Char
  | 0, _, _, s => s
  | fuel+1, key, val, s =>
    match s with
    | [] => []
    | c :: rest =>
      if isPrefOf key (c :: rest) then
        val ++ repAllF fuel key val ((c :: rest).drop key.length)
      else
        c :: repAllF fuel key val rest

/-- Model of JS `s.split(key).join(val)` for a non-empty literal `key`
(as used by `applyKubeSubstitutions`): replace each non-overlapping
leftmost occurrence of `key` in `s` by `val`.  The emptiness guard makes
the function total on all inputs. -/
def repAll (key val s : List Char) : List Char :=
  if key.isEmpty then s else repAllF (s.length + 1) key val s

/-- The fixed token table `kubeVarMap` of the frontend (identical, up to
indentation, in ScanResultsModal.tsx, RemediationModal.tsx, AuditPage.tsx
and MCPBotPage.tsx). -/
def kubeVarMap : List (String × String) :=
  [("$apiserverconf", "/etc/kubernetes/manifests/kube-apiserver.yaml"),
   ("$apiserverbin", "kube-apiserver"),
   ("$controllermanagerbin", "kube-controller-manager"),
   ("$controllermanagerconf", "/etc/kubernetes/manifests/kube-controller-manager.yaml"),
   ("$schedulerbin", "kube-scheduler"),
   ("$schedulerconf", "/etc/kubernetes/manifests/kube-scheduler.yaml"),
   ("$schedulerkubeconfig", "/etc/kubernetes/scheduler.conf"),
   ("$controllermanagerkubeconfig", "/etc/kubernetes/controller-manager.conf"),
   ("$etcddatadir", "/var/lib/etcd"),
   ("$etcdconf", "/etc/kubernetes/manifests/etcd.yaml"),
   ("$etcdbin", "etcd"),
   ("$kubeletbin", "kubelet"),
   ("$kubeletsvc", "/usr/lib/systemd/system/kubelet.service.d/10-kubeadm.conf"),
   ("$kubeletkubeconfig", "/etc/kubernetes/kubelet.conf"),
   ("$kubeletconf", "/var/lib/kubelet/config.yaml"),
   ("$kubeletcafile", "/etc/kubernetes/pki/ca.crt"),
   ("$proxybin", "kube-proxy"),
   ("$proxykubeconfig", "/var/lib/kube-proxy/kubeconfig.conf"),
   ("$proxyconf", "/var/lib/kube-proxy/config.conf")]

/-- The token table as character lists, ready for scanning. -/
def kubePairs : List (List Char × List Char) :=
  kubeVarMap.map (fun kv => (kv.1.data, kv.2.data))

/-- `applyKubeSubstitutions` as defined in ScanResultsModal.tsx (and,
textually identically, in RemediationModal.tsx and MCPBotPage.tsx):
`if (!text) return text;` then a reduce of `acc.split(key).join(value)`
over the table entries in table order. -/
def applyKubeSubstitutions (text : Option String) : Option String :=
  match text with
  | none => none
  | some t =>
    if t.isEmpty then some t
    else some (String.mk (kubePairs.foldl (fun acc kv => repAll kv.1 kv.2 acc) t.data))

/-- `applyKubeSubstitutions` as defined in AuditPage.tsx: the same
reduce, but `if (!text) return text || '';` — absent input yields the
empty string instead of the absent value. -/
def applyKubeSubstitutionsAudit (text : Option String) : String :=
  match text with
  | none => ""
  | some t =>
    if t.isEmpty then t
    else String.mk (kubePairs.foldl (fun acc kv => repAll kv.1 kv.2 acc) t.data)

/-- A decomposition piece of an input string: either literal text or one
token of the substitution table. -/
inductive KPiece where
  | lit : List Char → KPiece
  | tok : List Char × List Char → KPiece
deriving DecidableEq

/-- Render a piece list, expanding exactly the tokens whose table entry
is in `done` and leaving the others as raw token text. -/
def renderP (done : List (List Char × List Char)) : List KPiece → List Char
  | [] => []
  | KPiece.lit s :: rest => s ++ renderP done rest
  | KPiece.tok kv :: rest => (if kv ∈ done then kv.2 else kv.1) ++ renderP done rest

/-- Well-formed decomposition: literal pieces carry no dollar sign and
token pieces are entries of the table. -/
def wfkB (ps : List KPiece) : Bool :=
  ps.all fun p =>
    match p with
    | KPiece.lit s => decide ('$' ∉ s)
    | KPiece.tok kv => decide (kv ∈ kubePairs)

/-- One per-check scan-result row as the frontend passes it around
(duck-typed in the source; every field may be absent).  `rtype` models
the source field `type`. -/
structure JSResult where
  itemId : Option String
  id : Option String
  title : Option String
  rtype : Option String
  status : Option String
  details : Option String
deriving DecidableEq

/-- JS `checkId.split('.')`. -/
def splitOnDot : List Char → List (List Char)
  | [] => [[]]
  | c :: rest =>
    if c = '.' then [] :: splitOnDot rest
    else
      match splitOnDot rest with
      | [] => [[c]]
      | seg :: segs => (c :: seg) :: segs

/-- Decimal value of a digit list. -/
def natOfDigits (ds : List Char) : Nat :=
  ds.foldl (fun acc c => acc * 10 + (c.toNat - '0'.toNat)) 0

/-- Model of JS `parseInt(part, 10)` with the caller's NaN-to-0 mapping:
skip leading whitespace, read an optional sign and a longest decimal
digit run; yield 0 when no digit is found. -/
def jsParseIntD0 (s : List Char) : Int :=
  let t := s.dropWhile Char.isWhitespace
  let core := fun (u : List Char) (sign : Int) =>
    let ds := u.takeWhile Char.isDigit
    if ds.isEmpty then 0 else sign * (natOfDigits ds : Int)
  match t with
  | '-' :: r => core r (-1)
  | '+' :: r => core r 1
  | _ => core t 1

/-- `parseCheckId` of benchmarkAPI.ts: `"1.2.3"` becomes `[1, 2, 3]`,
non-numeric segments become 0, a falsy id becomes `[0]`. -/
def parseCheckId (checkId : String) : List Int :=
  if checkId.isEmpty then [0]
  else
    let parts := (splitOnDot checkId.data).map jsParseIntD0
    if parts.length > 0 then parts else [0]

/-- Right-pad a segment list with zeros up to length `n` (the
comparator's `idA[i] || 0` for indices past the end). -/
def padZeros (a : List Int) (n : Nat) : List Int :=
  a ++ List.replicate (n - a.length) 0

/-- Componentwise numeric comparison of two equally padded segment
lists: first differing component decides. -/
def cmpSameLen : List Int → List Int → Ordering
  | [], _ => Ordering.eq
  | _ :: _, [] => Ordering.eq
  | x :: xs, y :: ys =>
    if x < y then Ordering.lt else if y < x then Ordering.gt else cmpSameLen xs ys

/-- The comparator loop of `sortChecksByIdAscending`: compare segment
`i` for `i` up to the longer length, missing segments read as 0. -/
def idCmp (a b : List Int) : Ordering :=
  cmpSameLen (padZeros a (max a.length b.length)) (padZeros b (max a.length b.length))

/-- `a.itemId || a.id || ''` as used by the comparator. -/
def idKeyOf (r : JSResult) : String := (jsOr r.itemId r.id).getD ""

/-- The sort's at-most relation: comparator value not positive. -/
def idLe (a b : JSResult) : Bool :=
  match idCmp (parseCheckId (idKeyOf a)) (parseCheckId (idKeyOf b)) with
  | Ordering.gt => false
  | _ => true

/-- Ordered insert of the stable insertion sort used to model
`Array.prototype.sort` (which is specified as a stable comparator
sort — any stable sorting algorithm yields the same list). -/
def insertLe {α : Type} (le : α → α → Bool) (x : α) : List α → List α
  | [] => [x]
  | y :: ys => if le x y then x :: y :: ys else y :: insertLe le x ys

/-- Stable insertion sort. -/
def sortLe {α : Type} (le : α → α → Bool) : List α → List α
  | [] => []
  | x :: xs => insertLe le x (sortLe le xs)

/-- `sortChecksByIdAscending` of benchmarkAPI.ts. -/
def sortChecksByIdAscending (checks : List JSResult) : List JSResult :=
  sortLe idLe checks

/-- The `summary` object built by `exportScanResults`. -/
structure ExportSummary where
  total : Nat
  passed : Nat
  failed : Nat
  warnings : Nat
deriving DecidableEq

/-- `exportScanResults` summary: counts by status string only. -/
def exportSummary (scanResults : List JSResult) : ExportSummary :=
  ExportSummary.mk scanResults.length
    (scanResults.filter (fun r => r.status == some "PASS")).length
    (scanResults.filter (fun r => r.status == some "FAIL")).length
    (scanResults.filter (fun r => r.status == some "WARN")).length

/-- `failedItems` of `generateHTMLReport`: sorted results with status
FAIL (the report's "Failed Checks" section lists exactly these and is
rendered only when non-empty). -/
def exportFailedItems (scanResults : List JSResult) : List JSResult :=
  (sortChecksByIdAscending scanResults).filter (fun r => r.status == some "FAIL")

/-- `warningItems` of `generateHTMLReport`: sorted results with status
WARN (the report's "Warnings" section). -/
def exportWarningItems (scanResults : List JSResult) : List JSResult :=
  (sortChecksByIdAscending scanResults).filter (fun r => r.status == some "WARN")

/-- `passedItems` of `generateHTMLReport`. -/
def exportPassedItems (scanResults : List JSResult) : List JSResult :=
  (sortChecksByIdAscending scanResults).filter (fun r => r.status == some "PASS")

/-- A result row carrying only a dotted id. -/
def idRow (s : String) : JSResult :=
  JSResult.mk (some s) none none none none none

/-- A Manual-typed FAIL scan result. -/
def manualFailRow : JSResult :=
  JSResult.mk (some "1.2.16") none (some "Ensure the admission control plugin is set")
    (some "Manual") (some "FAIL") none

/-- The modal's Manual-ness heuristic: `type === 'Manual'`, or a truthy
title containing "(Manual)", or a truthy itemId containing "Manual". -/
def isManualModal (r : JSResult) : Bool :=
  r.rtype == some "Manual" ||
  (match r.title with
   | some t => !t.isEmpty && strIncludes t "(Manual)"
   | none => false) ||
  (match r.itemId with
   | some t => !t.isEmpty && strIncludes t "Manual"
   | none => false)

/-- `passedCount` of ScanResultsModal. -/
def modalPassedCount (results : List JSResult) : Nat :=
  (results.filter (fun r => r.status == some "PASS")).length

/-- `failedCount` of ScanResultsModal: FAIL results that are not
Manual. -/
def modalFailedCount (results : List JSResult) : Nat :=
  (results.filter (fun r => r.status == some "FAIL" && !isManualModal r)).length

/-- `warnCount` of ScanResultsModal: WARN results plus Manual FAIL
results. -/
def modalWarnCount (results : List JSResult) : Nat :=
  (results.filter (fun r =>
    r.status == some "WARN" || (r.status == some "FAIL" && isManualModal r))).length

/-- The block kinds the modal's content area can render. -/
inductive ModalSection where
  | failed
  | warnings
  | passed
  | allPassed
deriving DecidableEq

/-- The sequence of content blocks ScanResultsModal renders: an
all-checks-passed banner when both counts are zero, otherwise a Failed
Checks block when `failedCount > 0` followed by a Warnings block when
`warnCount > 0`.  No Passed block exists in the component. -/
def modalSections (results : List JSResult) : List ModalSection :=
  if modalFailedCount results = 0 ∧ modalWarnCount results = 0 then [ModalSection.allPassed]
  else
    (if modalFailedCount results > 0 then [ModalSection.failed] else [])
      ++ (if modalWarnCount results > 0 then [ModalSection.warnings] else [])

/-- Modelled from the spec: "Renders three sections (Failed, Warnings,
Passed) each only if non-empty" — the comparison rendering the claim
describes, with a Passed section present whenever a PASS result
exists. -/
def specModalSections (results : List JSResult) : List ModalSection :=
  (if modalFailedCount results > 0 then [ModalSection.failed] else [])
    ++ (if modalWarnCount results > 0 then [ModalSection.warnings] else [])
    ++ (if modalPassedCount results > 0 then [ModalSection.passed] else [])

/-- A plain PASS scan result. -/
def passRow : JSResult :=
  JSResult.mk (some "1.1.1") none
    (some "Ensure API server pod specification file permissions are 600") none
    (some "PASS") none

/-- One per-check remediation result as returned by `/api/remediate`.
`rstatus` models the source field `status` (post-fix verification),
`success` the execution-layer flag. -/
structure RemediationResult where
  checkId : Option String
  success : Option Bool
  rstatus : Option String
deriving DecidableEq

/-- `passedIds` of `confirmRemediation`: results with verification
status PASS **or** execution success true. -/
def remPassedIds (results : List RemediationResult) : List (Option String) :=
  (results.filter (fun r => r.rstatus == some "PASS" || r.success == some true)).map
    (fun r => r.checkId)

/-- `failedIds` of `confirmRemediation`: results with a truthy status
other than PASS. -/
def remFailedIds (results : List RemediationResult) : List (Option String) :=
  (results.filter (fun r => truthyS r.rstatus && !(r.rstatus == some "PASS"))).map
    (fun r => r.checkId)

/-- One benchmark catalog item of the Scan & Fix page.  `itype` models
the source field `type`. -/
structure BenchmarkItem where
  id : String
  title : String
  description : String
  itype : String
  selected : Bool
  status : Option String
  remediation : Option String
deriving DecidableEq

/-- One catalog section. -/
structure BSection where
  id : String
  title : String
  items : List BenchmarkItem
deriving DecidableEq

/-- The catalog update performed by `confirmRemediation` after a
successful remediation response: items whose id is in `passedIds` become
PASS, otherwise items whose id is in `failedIds` become FAIL, all other
items and fields unchanged; when both id lists are empty nothing is
updated. -/
def applyRemediationUpdate (results : List RemediationResult) (sections : List BSection) :
    List BSection :=
  let passedIds := remPassedIds results
  let failedIds := remFailedIds results
  if passedIds.length > 0 ∨ failedIds.length > 0 then
    sections.map fun sec =>
      BSection.mk sec.id sec.title (sec.items.map fun item =>
        if some item.id ∈ passedIds then
          BenchmarkItem.mk item.id item.title item.description item.itype item.selected
            (some "PASS") item.remediation
        else if some item.id ∈ failedIds then
          BenchmarkItem.mk item.id item.title item.description item.itype item.selected
            (some "FAIL") item.remediation
        else item)
  else sections

/-- A catalog with a single FAIL item. -/
def failedCatalog : List BSection :=
  [BSection.mk "section1" "Control Plane Components"
    [BenchmarkItem.mk "1.1.1" "Ensure API server pod file permissions" "desc" "Automated"
      true (some "FAIL") none]]

/-- A remediation result whose fix command reported success but whose
post-fix verification still says FAIL. -/
def successButFailVerify : RemediationResult :=
  RemediationResult.mk (some "1.1.1") (some true) (some "FAIL")

/-- `handleToggleItem` of BenchmarkDashboard.tsx: map over all sections
and items, negating `selected` on items whose id matches and spreading
every other field unchanged. -/
def handleToggleItem (itemId : String) (sections : List BSection) : List BSection :=
  sections.map fun sec =>
    BSection.mk sec.id sec.title (sec.items.map fun item =>
      if item.id = itemId then
        BenchmarkItem.mk item.id item.title item.description item.itype (!item.selected)
          item.status item.remediation
      else item)

/-- One fetched scan state seen by a poll tick. -/
structure PollFetch where
  pstatus : String
  progress : Int
deriving DecidableEq

/-- Terminal state of a `pollScanStatus` run over a finite script. -/
inductive PollOutcome where
  | resolved : PollFetch → PollOutcome
  | rejected
  | pending
deriving DecidableEq

/-- `pollScanStatus` run against a finite script of successively fetched
scan states, threading the number of `onProgress` invocations: each poll
tick first invokes the progress callback, then resolves on 'completed',
rejects on 'failed', and otherwise schedules the next poll after 2
seconds; a script exhausted while still running leaves the promise
pending (the source polls with no upper bound). -/
def pollScanStatusRun : List PollFetch → Nat → Nat × PollOutcome
  | [], n => (n, PollOutcome.pending)
  | f :: rest, n =>
    if f.pstatus == "completed" then (n + 1, PollOutcome.resolved f)
    else if f.pstatus == "failed" then (n + 1, PollOutcome.rejected)
    else pollScanStatusRun rest (n + 1)

/-- The `details` object of a failed inventory/bootstrap response.
`derror` models the source field `error`. -/
structure RespDetails where
  derror : Option String
  ssh_error : Option String
  output : Option String
deriving DecidableEq

/-- A failed response body of the inventory/bootstrap client.  `rerror`
models the source field `error`. -/
structure RespBody where
  rerror : Option String
  message : Option String
  details : Option RespDetails
deriving DecidableEq

/-- The synthesized permission-denied explanation of
`K8sAPIService.makeRequest`. -/
def permissionDeniedMsg : String :=
  "SSH Permission denied: The SSH key is not authorized on the remote node. Please add the public key to ~/.ssh/authorized_keys on the target node."

/-- The ternary `details?.output && output.includes('Permission denied')
? <msg> : null` of `K8sAPIService.makeRequest`. -/
def permDenCand (b : RespBody) : Option String :=
  match b.details with
  | none => none
  | some d =>
    match d.output with
    | none => none
    | some o =>
      if !o.isEmpty && strIncludes o "Permission denied" then some permissionDeniedMsg
      else none

/-- The error-message extraction chain of `K8sAPIService.makeRequest`:
`data.error || data.message || data.details?.error ||
data.details?.ssh_error || <permission-denied ternary> ||
'API request failed'`. -/
def extractErrorMessage (b : RespBody) : String :=
  jsOrStr
    (jsOr b.rerror
      (jsOr b.message
        (jsOr (b.details.bind fun d => d.derror)
          (jsOr (b.details.bind fun d => d.ssh_error) (permDenCand b)))))
    "API request failed"

/-- A failed bootstrap body whose only diagnostic is a permission-denied
shell output. -/
def sshDeniedBody : RespBody :=
  RespBody.mk none none
    (some (RespDetails.mk none none (some "bash: /home/ansible/.ssh: Permission denied")))

/-- One remediation audit event as the dashboard consumes it.  `astatus`
models `event.status`; `verifyStatus` and `postCheckStatus` model
`details.verifyResult.status` and `details.post_check_status`. -/
structure DAuditEvent where
  astatus : Option String
  checkId : Option String
  nodeName : Option String
  verifyStatus : Option String
  postCheckStatus : Option String
deriving DecidableEq

/-- One fetched scan for the dashboard (already qualifying: completed
with non-empty results, sorted newest first). -/
structure DScan where
  nodeName : Option String
  results : List JSResult
deriving DecidableEq

/-- JS `s.toUpperCase()` (character-wise upper-casing). -/
def jsUpper (s : String) : String := String.mk (s.data.map Char.toUpper)

/-- The dashboard's qualifying filter for remediation audit events:
status SUCCESS (case-insensitively) and verification PASS via
`verifyResult.status` or `post_check_status`. -/
def qualifyingRemediation (e : DAuditEvent) : Bool :=
  (match e.astatus with
   | some s => jsUpper s == "SUCCESS"
   | none => false) &&
  ((match e.verifyStatus with
    | some s => jsUpper s == "PASS"
    | none => false) ||
   (match e.postCheckStatus with
    | some s => jsUpper s == "PASS"
    | none => false))

/-- The map key `r.itemId || r.id` used by the dashboard's scan-pair
comparison. -/
def keyOfR (r : JSResult) : Option String := jsOr r.itemId r.id

/-- One JS `Map` insertion: a duplicate key keeps its first insertion
position but takes the last value. -/
def mapUpsert (m : List (Option String × JSResult)) (k : Option String) (v : JSResult) :
    List (Option String × JSResult) :=
  if m.any (fun kv => kv.1 == k) then m.map (fun kv => if kv.1 == k then (k, v) else kv)
  else m ++ [(k, v)]

/-- `new Map(results.map(r => [r.itemId || r.id, r]))`. -/
def buildMap (rs : List JSResult) : List (Option String × JSResult) :=
  rs.foldl (fun m r => mapUpsert m (keyOfR r) r) []

/-- JS `map.get(k)`. -/
def mapGet (m : List (Option String × JSResult)) (k : Option String) : Option JSResult :=
  (m.find? (fun kv => kv.1 == k)).map (fun kv => kv.2)

/-- The dashboard's Manual-ness heuristic for scan results: type Manual
or a truthy title containing "(Manual)" (no itemId clause here, unlike
the modal). -/
def isManualDash (r : JSResult) : Bool :=
  r.rtype == some "Manual" ||
  (match r.title with
   | some t => !t.isEmpty && strIncludes t "(Manual)"
   | none => false)

/-- One JS `Set.add`. -/
def addUnique (l : List (Option String)) (x : Option String) : List (Option String) :=
  if x ∈ l then l else l ++ [x]

/-- The `remediatedChecks` computation of `loadDashboardData`: a string
set seeded with the truthy checkIds of qualifying remediation audit
events, then — when more than one qualifying scan exists — extended with
every key of the most recent scan's result map whose result is PASS,
whose key maps to FAIL in the second-most-recent scan's map, and whose
most-recent result is not Manual; the statistic is the set's size. -/
def remediatedChecksStat (events : List DAuditEvent) (scans : List DScan) : Nat :=
  let s0 := (events.filter qualifyingRemediation).foldl
    (fun acc e =>
      match e.checkId with
      | some c => if !c.isEmpty then addUnique acc (some c) else acc
      | none => acc) []
  match scans with
  | latest :: prev :: _ =>
    ((buildMap latest.results).foldl (fun acc kv =>
      if kv.2.status == some "PASS" then
        match mapGet (buildMap prev.results) kv.1 with
        | some p =>
          if p.status == some "FAIL" && !isManualDash kv.2 then addUnique acc kv.1 else acc
        | none => acc
      else acc) s0).length
  | _ => s0.length

/-- The truthy checkIds of qualifying remediation audit events, in
order. -/
def remAuditIds (events : List DAuditEvent) : List (Option String) :=
  (events.filter qualifyingRemediation).filterMap fun e =>
    match e.checkId with
    | some c => if !c.isEmpty then some (some c) else none
    | none => none

/-- The keys that moved from FAIL in the second-most-recent scan to a
non-Manual PASS in the most recent scan (node ignored), in map order. -/
def remScanMovedKeys (scans : List DScan) : List (Option String) :=
  match scans with
  | latest :: prev :: _ =>
    (buildMap latest.results).filterMap fun kv =>
      if kv.2.status == some "PASS" then
        match mapGet (buildMap prev.results) kv.1 with
        | some p =>
          if p.status == some "FAIL" && !isManualDash kv.2 then some kv.1 else none
        | none => none
      else none
  | _ => []

/-- Modelled from the spec: "`remediatedChecks` = size of the union of
(a) distinct checkIds from qualifying remediation audit events and (b) —
only if ≥2 qualifying scans exist — checks that moved from FAIL
(non-Manual) in the second-most-recent scan to PASS in the most recent
scan, for the same node, deduplicated by node+checkId against (a)" —
with the same-node requirement and node+checkId deduplication the claim
states. -/
def specRemediatedChecksStat (events : List DAuditEvent) (scans : List DScan) : Nat :=
  let aPairs : List (Option String × Option String) :=
    (events.filter qualifyingRemediation).filterMap fun e =>
      match e.checkId with
      | some c => if !c.isEmpty then some (e.nodeName, some c) else none
      | none => none
  let aIds := (aPairs.map fun p => p.2).dedup
  match scans with
  | latest :: second :: _ =>
    if latest.nodeName == second.nodeName then
      let bPairs := (buildMap latest.results).foldl (fun acc kv =>
        if kv.2.status == some "PASS" then
          match mapGet (buildMap second.results) kv.1 with
          | some p =>
            if p.status == some "FAIL" && !isManualDash p
                && !(aPairs.contains (latest.nodeName, kv.1))
                && !(acc.contains (latest.nodeName, kv.1)) then
              acc ++ [(latest.nodeName, kv.1)]
            else acc
          | none => acc
        else acc) []
      aIds.length + bPairs.length
    else aIds.length
  | _ => aIds.length

/-- The most recent qualifying scan: node A, check 1.2.3 PASS. -/
def scanNodeA : DScan :=
  DScan.mk (some "nodeA")
    [JSResult.mk (some "1.2.3") none (some "Ensure admission limits are set")
      (some "Automated") (some "PASS") none]

/-- The second-most-recent qualifying scan: node B, check 1.2.3 FAIL. -/
def scanNodeB : DScan :=
  DScan.mk (some "nodeB")
    [JSResult.mk (some "1.2.3") none (some "Ensure admission limits are set")
      (some "Automated") (some "FAIL") none]

theorem repAllF_succ_nil (fuel : Nat) (key val : List Char) :
    repAllF (fuel + 1) key val [] = [] := rfl

theorem repAllF_succ_cons (fuel : Nat) (key val : List Char) (c : Char) (rest : List Char) :
    repAllF (fuel + 1) key val (c :: rest) =
      if isPrefOf key (c :: rest) then
        val ++ repAllF fuel key val ((c :: rest).drop key.length)
      else c :: repAllF fuel key val rest := rfl

theorem repAllF_congr (key val : List Char) (hk : key ≠ []) :
    ∀ f₁ f₂ s, s.length < f₁ → s.length < f₂ →
      repAllF f₁ key val s = repAllF f₂ key val s := by
  have hkl : 0 < key.length := List.length_pos.mpr hk
  intro f₁
  induction f₁ with
  | zero => intro f₂ s h1 _; omega
  | succ g ih =>
    intro f₂ s h1 h2
    match f₂, s with
    | 0, s => omega
    | h+1, [] => rw [repAllF_succ_nil, repAllF_succ_nil]
    | h+1, c :: rest =>
      rw [repAllF_succ_cons g key val c rest, repAllF_succ_cons h key val c rest]
      have hd : ((c :: rest).drop key.length).length = rest.length + 1 - key.length := by
        simp [List.length_drop]
      have hlen : (c :: rest).length = rest.length + 1 := by simp
      cases hp : isPrefOf key (c :: rest) with
      | true =>
        rw [if_pos rfl, if_pos rfl]
        rw [ih h ((c :: rest).drop key.length) (by omega) (by omega)]
      | false =>
        rw [if_neg Bool.false_ne_true, if_neg Bool.false_ne_true]
        rw [ih h rest (by omega) (by omega)]

theorem repAll_nil (key val : List Char) : repAll key val [] = [] := by
  unfold repAll
  by_cases h : key.isEmpty <;> simp [h, repAllF]

theorem repAll_cons_pos (key val : List Char) (c : Char) (rest : List Char)
    (hk : key ≠ []) (h : isPrefOf key (c :: rest) = true) :
    repAll key val (c :: rest) = val ++ repAll key val ((c :: rest).drop key.length) := by
  have hkl : 0 < key.length := List.length_pos.mpr hk
  have hke : key.isEmpty = false := by
    cases key with
    | nil => exact absurd rfl hk
    | cons a as => rfl
  have hd : ((c :: rest).drop key.length).length = rest.length + 1 - key.length := by
    simp [List.length_drop]
  simp only [repAll, hke, Bool.false_eq_true, if_false]
  rw [repAllF_succ_cons ((c :: rest).length) key val c rest, if_pos h]
  rw [repAllF_congr key val hk ((c :: rest).length) (((c :: rest).drop key.length).length + 1)
    ((c :: rest).drop key.length) (by simp; omega) (by omega)]

theorem repAll_cons_neg (key val : List Char) (c : Char) (rest : List Char)
    (hk : key ≠ []) (h : isPrefOf key (c :: rest) = false) :
    repAll key val (c :: rest) = c :: repAll key val rest := by
  have hke : key.isEmpty = false := by
    cases key with
    | nil => exact absurd rfl hk
    | cons a as => rfl
  simp only [repAll, hke, Bool.false_eq_true, if_false]
  rw [repAllF_succ_cons ((c :: rest).length) key val c rest, if_neg (by simp [h])]
  rw [repAllF_congr key val hk ((c :: rest).length) (rest.length + 1) rest (by simp) (by omega)]

theorem isPrefOf_nil_left (s : List Char) : isPrefOf [] s = true := by
  cases s <;> rfl

theorem isPrefOf_append_self (key b : List Char) : isPrefOf key (key ++ b) = true := by
  induction key with
  | nil => exact isPrefOf_nil_left b
  | cons a as ih => simp [isPrefOf, ih]

theorem isPrefOf_append_cases (x y b : List Char) (h : isPrefOf x (y ++ b) = true) :
    isPrefOf x y = true ∨ isPrefOf y x = true := by
  induction x generalizing y with
  | nil => exact Or.inl (isPrefOf_nil_left y)
  | cons a as ih =>
    cases y with
    | nil => exact Or.inr (isPrefOf_nil_left (a :: as))
    | cons c cs =>
      simp only [List.cons_append, isPrefOf, Bool.and_eq_true, beq_iff_eq] at h ⊢
      rcases h with ⟨rfl, h⟩
      rcases ih cs h with h' | h'
      · exact Or.inl ⟨rfl, h'⟩
      · exact Or.inr ⟨rfl, h'⟩

theorem repAll_of_not_occurs (key val s : List Char) (h : occursIn key s = false) :
    repAll key val s = s := by
  have hk : key ≠ [] := by
    intro he
    subst he
    cases s with
    | nil => simp [occursIn, isPrefOf] at h
    | cons c r => simp [occursIn, isPrefOf_nil_left] at h
  induction s with
  | nil => exact repAll_nil key val
  | cons c rest ih =>
    simp only [occursIn, Bool.or_eq_false_iff] at h
    rw [repAll_cons_neg key val c rest hk h.1, ih h.2]

theorem repAll_skip_nodollar (key val a b : List Char)
    (hk : key.head? = some '$') (ha : '$' ∉ a) :
    repAll key val (a ++ b) = a ++ repAll key val b := by
  obtain ⟨kr, rfl⟩ : ∃ kr, key = '$' :: kr := by
    cases key with
    | nil => simp at hk
    | cons k kr =>
      simp only [List.head?_cons, Option.some.injEq] at hk
      exact ⟨kr, by rw [hk]⟩
  induction a with
  | nil => simp
  | cons c a' ih =>
    have hc : c ≠ '$' := fun he => ha (he ▸ List.mem_cons_self c a')
    have hnp : isPrefOf ('$' :: kr) (c :: (a' ++ b)) = false := by
      simp only [isPrefOf, Bool.and_eq_false_iff]
      exact Or.inl (beq_eq_false_iff_ne.mpr (Ne.symm hc))
    rw [List.cons_append, repAll_cons_neg _ _ _ _ (List.cons_ne_nil _ _) hnp,
      ih (fun hm => ha (List.mem_cons_of_mem c hm))]
    rfl

theorem repAll_head_key (key val b : List Char) (hk : key ≠ []) :
    repAll key val (key ++ b) = val ++ repAll key val b := by
  cases key with
  | nil => exact absurd rfl hk
  | cons k kr =>
    have hp : isPrefOf (k :: kr) (k :: (kr ++ b)) = true := by
      have := isPrefOf_append_self (k :: kr) b
      simpa using this
    rw [List.cons_append, repAll_cons_pos _ _ _ _ hk hp]
    congr 1
    have : k :: (kr ++ b) = (k :: kr) ++ b := by simp
    rw [this, List.drop_left]

theorem repAll_skip_other_key (key val key' b : List Char)
    (hk : key.head? = some '$') (hk' : key'.head? = some '$') (h2 : '$' ∉ key'.tail)
    (h3 : isPrefOf key key' = false) (h4 : isPrefOf key' key = false) :
    repAll key val (key' ++ b) = key' ++ repAll key val b := by
  have hkne : key ≠ [] := by
    intro he
    subst he
    rw [isPrefOf_nil_left] at h3
    simp at h3
  obtain ⟨kr', rfl⟩ : ∃ kr', key' = '$' :: kr' := by
    cases key' with
    | nil => simp at hk'
    | cons k kr =>
      simp only [List.head?_cons, Option.some.injEq] at hk'
      exact ⟨kr, by rw [hk']⟩
  have hnp : isPrefOf key (('$' :: kr') ++ b) = false := by
    cases hq : isPrefOf key (('$' :: kr') ++ b) with
    | false => rfl
    | true =>
      rcases isPrefOf_append_cases _ _ _ hq with h | h
      · rw [h] at h3; simp at h3
      · rw [h] at h4; simp at h4
  rw [List.cons_append, repAll_cons_neg _ _ _ _ hkne (by simpa using hnp)]
  have htail : '$' ∉ kr' := by simpa using h2
  rw [repAll_skip_nodollar key val kr' b hk htail]
  rfl

theorem kubePairs_shape : ∀ kv ∈ kubePairs,
    kv.1.head? = some '$' ∧ '$' ∉ kv.1.tail ∧ '$' ∉ kv.2 := by decide

theorem kubePairs_nonpref : ∀ p ∈ kubePairs, ∀ q ∈ kubePairs, p ≠ q →
    isPrefOf p.1 q.1 = false ∧ isPrefOf q.1 p.1 = false := by decide

theorem repAll_renderP (pre : List (List Char × List Char)) (e : List Char × List Char)
    (he : e ∈ kubePairs) :
    ∀ ps : List KPiece, wfkB ps = true →
      repAll e.1 e.2 (renderP pre ps) = renderP (pre ++ [e]) ps := by
  have hehead : e.1.head? = some '$' := (kubePairs_shape e he).1
  have hene : e.1 ≠ [] := by
    intro h
    rw [h] at hehead
    simp at hehead
  intro ps
  induction ps with
  | nil => intro _; simp [renderP, repAll_nil]
  | cons p rest ih =>
    intro hwf
    rw [wfkB, List.all_cons, Bool.and_eq_true] at hwf
    obtain ⟨hp, hrest⟩ := hwf
    have hrest' : wfkB rest = true := hrest
    cases p with
    | lit s =>
      have hs : '$' ∉ s := of_decide_eq_true hp
      simp only [renderP]
      rw [repAll_skip_nodollar e.1 e.2 s _ hehead hs, ih hrest']
    | tok kv =>
      have hkv : kv ∈ kubePairs := of_decide_eq_true hp
      simp only [renderP]
      by_cases hpre : kv ∈ pre
      · have hmem : kv ∈ pre ++ [e] := List.mem_append_left _ hpre
        rw [if_pos hpre, if_pos hmem]
        rw [repAll_skip_nodollar e.1 e.2 kv.2 _ hehead (kubePairs_shape kv hkv).2.2,
          ih hrest']
      · by_cases heq : kv = e
        · subst heq
          have hmem : kv ∈ pre ++ [kv] := List.mem_append_right _ (List.mem_singleton.mpr rfl)
          rw [if_neg hpre, if_pos hmem]
          rw [repAll_head_key kv.1 kv.2 _ hene, ih hrest']
        · have hmem : kv ∉ pre ++ [e] := by
            intro hm
            rcases List.mem_append.mp hm with hm | hm
            · exact hpre hm
            · exact heq (List.mem_singleton.mp hm)
          rw [if_neg hpre, if_neg hmem]
          have hnp := kubePairs_nonpref e he kv hkv (fun h => heq (h ▸ rfl))
          rw [repAll_skip_other_key e.1 e.2 kv.1 _ hehead (kubePairs_shape kv hkv).1
            (kubePairs_shape kv hkv).2.1 hnp.1 hnp.2, ih hrest']

theorem foldl_repAll_renderP :
    ∀ (rest pre : List (List Char × List Char)), (∀ x ∈ rest, x ∈ kubePairs) →
      ∀ ps : List KPiece, wfkB ps = true →
        rest.foldl (fun acc kv => repAll kv.1 kv.2 acc) (renderP pre ps)
          = renderP (pre ++ rest) ps := by
  intro rest
  induction rest with
  | nil => intro pre _ ps _; simp
  | cons e rest' ih =>
    intro pre hmem ps hwf
    have he : e ∈ kubePairs := hmem e (List.mem_cons_self e rest')
    rw [List.foldl_cons, repAll_renderP pre e he ps hwf,
      ih (pre ++ [e]) (fun x hx => hmem x (List.mem_cons_of_mem e hx)) ps hwf]
    congr 1
    simp

theorem mk_isEmpty (l : List Char) : (String.mk l).isEmpty = l.isEmpty := by
  cases l with
  | nil => rfl
  | cons c cs =>
    have h1 : String.mk (c :: cs) ≠ "" := by
      intro h
      have h2 := congrArg String.data h
      simp at h2
    have h3 : (String.mk (c :: cs)).isEmpty = false := by
      cases hb : (String.mk (c :: cs)).isEmpty with
      | false => rfl
      | true => exact absurd ((String.isEmpty_iff _).mp hb) h1
    rw [h3]
    rfl

theorem foldl_repAll_id (l : List (List Char × List Char)) (acc : List Char)
    (h : ∀ kv ∈ l, occursIn kv.1 acc = false) :
    l.foldl (fun acc kv => repAll kv.1 kv.2 acc) acc = acc := by
  induction l with
  | nil => rfl
  | cons e l' ih =>
    rw [List.foldl_cons, repAll_of_not_occurs e.1 e.2 acc (h e (List.mem_cons_self e l'))]
    exact ih (fun kv hk => h kv (List.mem_cons_of_mem e hk))

theorem applyKube_ident (s : String) (h : ∀ kv ∈ kubePairs, occursIn kv.1 s.data = false) :
    applyKubeSubstitutions (some s) = some s := by
  obtain ⟨d⟩ := s
  simp only [applyKubeSubstitutions]
  by_cases he : (String.mk d).isEmpty
  · rw [if_pos he]
  · rw [if_neg he, foldl_repAll_id kubePairs d h]

theorem renderP_done_nil (ps : List KPiece) (h : wfkB ps = true)
    (hnil : renderP [] ps = []) : renderP kubePairs ps = [] := by
  induction ps with
  | nil => rfl
  | cons p rest ih =>
    rw [wfkB, List.all_cons, Bool.and_eq_true] at h
    obtain ⟨hp, hrest⟩ := h
    cases p with
    | lit s =>
      simp only [renderP, List.append_eq_nil] at hnil ⊢
      exact ⟨hnil.1, ih hrest hnil.2⟩
    | tok kv =>
      exfalso
      have hkv : kv ∈ kubePairs := of_decide_eq_true hp
      have hk1 : kv.1 ≠ [] := by
        intro hx
        have hsh := (kubePairs_shape kv hkv).1
        rw [hx] at hsh
        simp at hsh
      simp only [renderP, if_neg (List.not_mem_nil kv), List.append_eq_nil] at hnil
      exact hk1 hnil.1

theorem applyKube_render (ps : List KPiece) (h : wfkB ps = true) :
    applyKubeSubstitutions (some (String.mk (renderP [] ps)))
      = some (String.mk (renderP kubePairs ps)) := by
  simp only [applyKubeSubstitutions]
  by_cases he : (String.mk (renderP [] ps)).isEmpty
  · rw [if_pos he]
    have hnil : renderP [] ps = [] := by
      have hmk := mk_isEmpty (renderP [] ps)
      rw [he] at hmk
      exact List.isEmpty_iff.mp hmk.symm
    rw [hnil, renderP_done_nil ps h hnil]
  · rw [if_neg he, foldl_repAll_renderP kubePairs [] (fun x hx => hx) ps h]
    rw [List.nil_append]

/-- Claim C6, counterexample: for absent input the scan-results-modal
(and remediation-modal and item-card) copy of the token-substitution
utility returns the absent value itself, not an empty string; the
audit-page copy returns an empty string, so the copies do not behave
identically on absent input. -/
theorem c6_absent_input_counterexample :
    applyKubeSubstitutions none = none ∧
    applyKubeSubstitutions none ≠ some "" ∧
    applyKubeSubstitutionsAudit none = "" := by
  refine ⟨rfl, ?_, rfl⟩
  intro h
  simp [applyKubeSubstitutions] at h

/-- Claim C6 as amended: on absent input the audit-page copy of the
token-substitution utility returns the empty string while the
scan-results-modal copy (shared verbatim by the remediation modal and
the item card) returns the absent value unchanged; on every present
input the two copies compute the same substituted text. -/
theorem c6_substitution_amended :
    applyKubeSubstitutions none = none ∧
    applyKubeSubstitutionsAudit none = "" ∧
    ∀ t : String, applyKubeSubstitutionsAudit (some t)
      = (applyKubeSubstitutions (some t)).getD "" := by
  refine ⟨rfl, rfl, ?_⟩
  intro t
  simp only [applyKubeSubstitutions, applyKubeSubstitutionsAudit]
  by_cases he : t.isEmpty
  · rw [if_pos he, if_pos he]
    rfl
  · rw [if_neg he, if_neg he]
    rfl

/-- Claim C7: the token-substitution utility is the identity on any text
in which none of the 19 table tokens occurs; and on any text decomposable
into dollar-free literal segments and table tokens — each token anywhere,
in any order, adjacent or repeated — it replaces every token occurrence
by its literal table value (table-order literal substring substitution,
values being dollar-free so no new occurrences arise). -/
theorem c7_token_substitution :
    (∀ s : String, (∀ kv ∈ kubePairs, occursIn kv.1 s.data = false) →
        applyKubeSubstitutions (some s) = some s) ∧
    (∀ ps : List KPiece, wfkB ps = true →
        applyKubeSubstitutions (some (String.mk (renderP [] ps)))
          = some (String.mk (renderP kubePairs ps))) :=
  ⟨applyKube_ident, applyKube_render⟩

/-- Witness for C7: the identity part at a concrete token-free text, and
the full-expansion part at the adjacent-token example
"$etcdbin $etcdconf" from the specification. -/
theorem c7_token_substitution_witness :
    applyKubeSubstitutions (some "kubectl get pods") = some "kubectl get pods" ∧
    applyKubeSubstitutions (some "$etcdbin $etcdconf")
      = some "etcd /etc/kubernetes/manifests/etcd.yaml" := by
  constructor
  · exact c7_token_substitution.1 "kubectl get pods" (by decide)
  · have h := c7_token_substitution.2
      [KPiece.tok ("$etcdbin".data, "etcd".data), KPiece.lit " ".data,
       KPiece.tok ("$etcdconf".data, "/etc/kubernetes/manifests/etcd.yaml".data)] (by decide)
    have h1 : String.mk (renderP []
        [KPiece.tok ("$etcdbin".data, "etcd".data), KPiece.lit " ".data,
         KPiece.tok ("$etcdconf".data, "/etc/kubernetes/manifests/etcd.yaml".data)])
        = "$etcdbin $etcdconf" := by decide
    have h2 : String.mk (renderP kubePairs
        [KPiece.tok ("$etcdbin".data, "etcd".data), KPiece.lit " ".data,
         KPiece.tok ("$etcdconf".data, "/etc/kubernetes/manifests/etcd.yaml".data)])
        = "etcd /etc/kubernetes/manifests/etcd.yaml" := by decide
    rw [h1, h2] at h
    exact h

theorem mem_insertLe {α : Type} (le : α → α → Bool) (x a : α) :
    ∀ l : List α, a ∈ insertLe le x l ↔ a = x ∨ a ∈ l := by
  intro l
  induction l with
  | nil => simp [insertLe]
  | cons y ys ih =>
    simp only [insertLe]
    by_cases h : le x y = true
    · rw [if_pos h]
      simp [List.mem_cons]
    · rw [if_neg h]
      simp only [List.mem_cons, ih]
      tauto

theorem mem_sortLe {α : Type} (le : α → α → Bool) (a : α) :
    ∀ l : List α, a ∈ sortLe le l ↔ a ∈ l := by
  intro l
  induction l with
  | nil => simp [sortLe]
  | cons x xs ih => simp [sortLe, mem_insertLe, ih]

theorem perm_insertLe {α : Type} (le : α → α → Bool) (x : α) :
    ∀ l : List α, (insertLe le x l).Perm (x :: l) := by
  intro l
  induction l with
  | nil => exact List.Perm.refl _
  | cons y ys ih =>
    simp only [insertLe]
    by_cases h : le x y = true
    · rw [if_pos h]
    · rw [if_neg h]
      exact (ih.cons y).trans (List.Perm.swap x y ys)

theorem perm_sortLe {α : Type} (le : α → α → Bool) :
    ∀ l : List α, (sortLe le l).Perm l := by
  intro l
  induction l with
  | nil => exact List.Perm.refl _
  | cons x xs ih => exact (perm_insertLe le x (sortLe le xs)).trans (ih.cons x)

theorem pairwise_insertLe {α : Type} (le : α → α → Bool)
    (htot : ∀ a b, le a b = true ∨ le b a = true)
    (htr : ∀ a b c, le a b = true → le b c = true → le a c = true) (x : α) :
    ∀ l : List α, l.Pairwise (fun a b => le a b = true) →
      (insertLe le x l).Pairwise (fun a b => le a b = true) := by
  intro l
  induction l with
  | nil => intro _; simp [insertLe]
  | cons y ys ih =>
    intro h
    rcases List.pairwise_cons.mp h with ⟨hy, hys⟩
    simp only [insertLe]
    by_cases hxy : le x y = true
    · rw [if_pos hxy]
      refine List.pairwise_cons.mpr ⟨?_, h⟩
      intro b hb
      rcases List.mem_cons.mp hb with rfl | hb
      · exact hxy
      · exact htr x y b hxy (hy b hb)
    · rw [if_neg hxy]
      have hyx : le y x = true := (htot x y).resolve_left hxy
      refine List.pairwise_cons.mpr ⟨?_, ih hys⟩
      intro b hb
      rcases (mem_insertLe le x b ys).mp hb with rfl | hb
      · exact hyx
      · exact hy b hb

theorem pairwise_sortLe {α : Type} (le : α → α → Bool)
    (htot : ∀ a b, le a b = true ∨ le b a = true)
    (htr : ∀ a b c, le a b = true → le b c = true → le a c = true) :
    ∀ l : List α, (sortLe le l).Pairwise (fun a b => le a b = true) := by
  intro l
  induction l with
  | nil => simp [sortLe]
  | cons x xs ih => exact pairwise_insertLe le htot htr x (sortLe le xs) ih

theorem cmpSameLen_refl : ∀ a : List Int, cmpSameLen a a = Ordering.eq := by
  intro a
  induction a with
  | nil => rfl
  | cons x xs ih => simp [cmpSameLen, lt_irrefl, ih]

theorem cmpSameLen_append_zeros (k : Nat) :
    ∀ x y : List Int, x.length = y.length →
      cmpSameLen (x ++ List.replicate k 0) (y ++ List.replicate k 0) = cmpSameLen x y := by
  intro x
  induction x with
  | nil =>
    intro y hy
    have hy' : y = [] := List.length_eq_zero.mp hy.symm
    subst hy'
    simp [cmpSameLen_refl]
  | cons a as ih =>
    intro y hy
    cases y with
    | nil => simp at hy
    | cons b bs =>
      simp only [List.cons_append, cmpSameLen]
      have hlen : as.length = bs.length := by simpa using hy
      by_cases h1 : a < b
      · rw [if_pos h1, if_pos h1]
      · rw [if_neg h1, if_neg h1]
        by_cases h2 : b < a
        · rw [if_pos h2, if_pos h2]
        · rw [if_neg h2, if_neg h2]
          exact ih bs hlen

theorem padZeros_length (a : List Int) (n : Nat) (h : a.length ≤ n) :
    (padZeros a n).length = n := by
  simp [padZeros]
  omega

theorem idCmp_via (a b : List Int) (n : Nat) (ha : a.length ≤ n) (hb : b.length ≤ n) :
    cmpSameLen (padZeros a n) (padZeros b n) = idCmp a b := by
  have hma : a.length ≤ max a.length b.length := le_max_left _ _
  have hmb : b.length ≤ max a.length b.length := le_max_right _ _
  have hmn : max a.length b.length ≤ n := max_le ha hb
  have h1 : padZeros a n
      = padZeros a (max a.length b.length) ++ List.replicate (n - max a.length b.length) 0 := by
    have he : n - a.length = (max a.length b.length - a.length) + (n - max a.length b.length) := by
      omega
    rw [padZeros, padZeros, List.append_assoc, ← List.replicate_add, ← he]
  have h2 : padZeros b n
      = padZeros b (max a.length b.length) ++ List.replicate (n - max a.length b.length) 0 := by
    have he : n - b.length = (max a.length b.length - b.length) + (n - max a.length b.length) := by
      omega
    rw [padZeros, padZeros, List.append_assoc, ← List.replicate_add, ← he]
  rw [h1, h2, cmpSameLen_append_zeros _ _ _
    (by rw [padZeros_length _ _ hma, padZeros_length _ _ hmb])]
  rfl

theorem cmpSameLen_swap : ∀ u v : List Int, u.length = v.length →
    cmpSameLen v u = (cmpSameLen u v).swap := by
  intro u
  induction u with
  | nil =>
    intro v hv
    have hv' : v = [] := List.length_eq_zero.mp hv.symm
    subst hv'
    rfl
  | cons x xs ih =>
    intro v hv
    cases v with
    | nil => simp at hv
    | cons y ys =>
      simp only [cmpSameLen]
      have hlen : xs.length = ys.length := by simpa using hv
      by_cases h1 : x < y
      · have h2 : ¬ y < x := by omega
        rw [if_pos h1, if_neg h2, if_pos h1]
        rfl
      · by_cases h2 : y < x
        · rw [if_pos h2, if_neg h1, if_pos h2]
          rfl
        · rw [if_neg h1, if_neg h2, if_neg h2, if_neg h1, ih ys hlen]

theorem cmpSameLen_le_trans : ∀ u v w : List Int, u.length = v.length → v.length = w.length →
    cmpSameLen u v ≠ Ordering.gt → cmpSameLen v w ≠ Ordering.gt →
    cmpSameLen u w ≠ Ordering.gt := by
  intro u
  induction u with
  | nil => intro v w _ _ _ _; simp [cmpSameLen]
  | cons x xs ih =>
    intro v w huv hvw h1 h2
    cases v with
    | nil => simp at huv
    | cons y ys =>
      cases w with
      | nil => simp at hvw
      | cons z zs =>
        simp only [cmpSameLen] at h1 h2 ⊢
        by_cases hxy : x < y
        · by_cases hyz : y < z
          · rw [if_pos (by omega : x < z)]
            simp
          · by_cases hzy : z < y
            · rw [if_neg hyz, if_pos hzy] at h2
              exact absurd rfl h2
            · have he : y = z := by omega
              rw [if_pos (by omega : x < z)]
              simp
        · by_cases hyx : y < x
          · rw [if_neg hxy, if_pos hyx] at h1
            exact absurd rfl h1
          · have he : x = y := by omega
            subst he
            by_cases hxz : x < z
            · rw [if_pos hxz]
              simp
            · by_cases hzx : z < x
              · rw [if_neg hxz, if_pos hzx] at h2
                exact absurd rfl h2
              · rw [if_neg hxz, if_neg hzx] at h2 ⊢
                rw [if_neg hxy, if_neg (by omega : ¬ x < x)] at h1
                exact ih ys zs (by simpa using huv) (by simpa using hvw) h1 h2

theorem idLe_iff (a b : JSResult) : idLe a b = true ↔
    idCmp (parseCheckId (idKeyOf a)) (parseCheckId (idKeyOf b)) ≠ Ordering.gt := by
  unfold idLe
  cases h : idCmp (parseCheckId (idKeyOf a)) (parseCheckId (idKeyOf b)) <;> simp

theorem idCmp_swap (a b : List Int) : idCmp b a = (idCmp a b).swap := by
  unfold idCmp
  rw [max_comm b.length a.length]
  exact cmpSameLen_swap _ _
    (by rw [padZeros_length _ _ (le_max_left _ _), padZeros_length _ _ (le_max_right _ _)])

theorem idLe_total (a b : JSResult) : idLe a b = true ∨ idLe b a = true := by
  by_cases h : idCmp (parseCheckId (idKeyOf a)) (parseCheckId (idKeyOf b)) = Ordering.gt
  · right
    rw [idLe_iff, idCmp_swap, h]
    simp [Ordering.swap]
  · left
    rw [idLe_iff]
    exact h

theorem idLe_trans (a b c : JSResult) (h1 : idLe a b = true) (h2 : idLe b c = true) :
    idLe a c = true := by
  rw [idLe_iff] at h1 h2 ⊢
  have hka : (parseCheckId (idKeyOf a)).length
      ≤ max (parseCheckId (idKeyOf a)).length
          (max (parseCheckId (idKeyOf b)).length (parseCheckId (idKeyOf c)).length) :=
    le_max_left _ _
  have hkb : (parseCheckId (idKeyOf b)).length
      ≤ max (parseCheckId (idKeyOf a)).length
          (max (parseCheckId (idKeyOf b)).length (parseCheckId (idKeyOf c)).length) :=
    le_trans (le_max_left _ _) (le_max_right _ _)
  have hkc : (parseCheckId (idKeyOf c)).length
      ≤ max (parseCheckId (idKeyOf a)).length
          (max (parseCheckId (idKeyOf b)).length (parseCheckId (idKeyOf c)).length) :=
    le_trans (le_max_right _ _) (le_max_right _ _)
  rw [← idCmp_via _ _ _ hka hkb] at h1
  rw [← idCmp_via _ _ _ hkb hkc] at h2
  rw [← idCmp_via _ _ _ hka hkc]
  exact cmpSameLen_le_trans _ _ _
    (by rw [padZeros_length _ _ hka, padZeros_length _ _ hkb])
    (by rw [padZeros_length _ _ hkb, padZeros_length _ _ hkc]) h1 h2

theorem length_filter_erase_pos {α : Type} [DecidableEq α] (p : α → Bool) (r : α) :
    ∀ l : List α, r ∈ l → p r = true →
      (l.filter p).length = ((l.erase r).filter p).length + 1 := by
  intro l
  induction l with
  | nil => intro h; simp at h
  | cons a l' ih =>
    intro hmem hp
    by_cases ha : a = r
    · subst ha
      rw [List.erase_cons_head]
      simp [List.filter_cons, hp]
    · rw [List.erase_cons_tail (by simpa using ha)]
      have hmem' : r ∈ l' := by
        rcases List.mem_cons.mp hmem with h | h
        · exact absurd h.symm ha
        · exact h
      cases hpa : p a with
      | true => simp [List.filter_cons, hpa, ih hmem' hp]
      | false => simp [List.filter_cons, hpa, ih hmem' hp]

theorem filter_erase_neg {α : Type} [DecidableEq α] (p : α → Bool) (r : α) :
    ∀ l : List α, p r = false → (l.erase r).filter p = l.filter p := by
  intro l
  induction l with
  | nil => intro _; rfl
  | cons a l' ih =>
    intro hp
    by_cases ha : a = r
    · subst ha
      rw [List.erase_cons_head]
      simp [List.filter_cons, hp]
    · rw [List.erase_cons_tail (by simpa using ha)]
      cases hpa : p a with
      | true => simp [List.filter_cons, hpa, ih hp]
      | false => simp [List.filter_cons, hpa, ih hp]

/-- Claim C9: the report sort orders dotted ids ascending by
componentwise numeric comparison (non-numeric segments read as 0,
shorter ids zero-padded on the right): the specification's example sorts
as stated, and in general the sort returns a permutation of its input
that is pairwise ordered by the comparator's at-most relation. -/
theorem c9_dotted_id_sort :
    sortChecksByIdAscending [idRow "5.1.1", idRow "1.2", idRow "1.10", idRow "1.2.1"]
      = [idRow "1.2", idRow "1.2.1", idRow "1.10", idRow "5.1.1"] ∧
    ∀ checks : List JSResult, (sortChecksByIdAscending checks).Perm checks ∧
      (sortChecksByIdAscending checks).Pairwise (fun a b => idLe a b = true) := by
  refine ⟨by decide, fun checks => ⟨perm_sortLe idLe checks, ?_⟩⟩
  exact pairwise_sortLe idLe idLe_total idLe_trans checks

/-- Claim C1, counterexample: a scan result with type Manual and status
FAIL appears in the exported report's Failed Checks section, does not
appear under Warnings (that section is not rendered at all here), and is
counted as a failure, not a warning, in the export summary. -/
theorem c1_export_manual_fail_counterexample :
    manualFailRow.rtype = some "Manual" ∧ manualFailRow.status = some "FAIL" ∧
    exportFailedItems [manualFailRow] = [manualFailRow] ∧
    exportWarningItems [manualFailRow] = [] ∧
    (exportSummary [manualFailRow]).failed = 1 ∧
    (exportSummary [manualFailRow]).warnings = 0 := by decide

/-- Claim C1 as amended: every result with type Manual and status FAIL
appears in the exported report's Failed Checks section and does not
appear under Warnings, and is counted as a failure, not a warning, in
the export summary (removing it decrements the summary's `failed` count
and leaves its `warnings` count unchanged). -/
theorem c1_export_manual_fail_amended :
    ∀ (rs : List JSResult) (r : JSResult), r ∈ rs → r.rtype = some "Manual" →
      r.status = some "FAIL" →
      r ∈ exportFailedItems rs ∧ r ∉ exportWarningItems rs ∧
      (exportSummary rs).failed = (exportSummary (rs.erase r)).failed + 1 ∧
      (exportSummary rs).warnings = (exportSummary (rs.erase r)).warnings := by
  intro rs r hmem _ hstatus
  refine ⟨?_, ?_, ?_, ?_⟩
  · refine List.mem_filter.mpr ⟨(mem_sortLe idLe r rs).mpr hmem, ?_⟩
    simp [hstatus]
  · intro hw
    have := (List.mem_filter.mp hw).2
    rw [hstatus] at this
    simp at this
  · exact length_filter_erase_pos _ r rs hmem (by simp [hstatus])
  · simp only [exportSummary]
    rw [filter_erase_neg _ r rs (by simp [hstatus])]

/-- Witness for the amended C1 at the concrete Manual FAIL result. -/
theorem c1_export_manual_fail_amended_witness :
    manualFailRow ∈ exportFailedItems [manualFailRow] ∧
    manualFailRow ∉ exportWarningItems [manualFailRow] ∧
    (exportSummary [manualFailRow]).failed
      = (exportSummary ([manualFailRow].erase manualFailRow)).failed + 1 ∧
    (exportSummary [manualFailRow]).warnings
      = (exportSummary ([manualFailRow].erase manualFailRow)).warnings :=
  c1_export_manual_fail_amended [manualFailRow] manualFailRow (by decide) (by decide) (by decide)

/-- Claim C4, counterexample: on a result list with one PASS result the
modal renders only the all-checks-passed banner — no Passed section is
rendered even though the passed group is non-empty, diverging from the
spec-modelled rendering. -/
theorem c4_passed_section_counterexample :
    modalPassedCount [passRow] > 0 ∧
    modalSections [passRow] = [ModalSection.allPassed] ∧
    ModalSection.passed ∉ modalSections [passRow] ∧
    modalSections [passRow] ≠ specModalSections [passRow] := by decide

/-- Claim C4 as amended: the modal renders a Failed block exactly when
the non-Manual FAIL group is non-empty and a Warnings block exactly when
the WARN-or-Manual-FAIL group is non-empty; it never renders a Passed
section (passed results appear only in the summary count), and when both
groups are empty it renders an all-checks-passed banner instead. -/
theorem c4_modal_sections_amended :
    ∀ results : List JSResult,
      (ModalSection.failed ∈ modalSections results ↔ modalFailedCount results > 0) ∧
      (ModalSection.warnings ∈ modalSections results ↔ modalWarnCount results > 0) ∧
      ModalSection.passed ∉ modalSections results ∧
      (ModalSection.allPassed ∈ modalSections results ↔
        modalFailedCount results = 0 ∧ modalWarnCount results = 0) := by
  intro results
  unfold modalSections
  by_cases h : modalFailedCount results = 0 ∧ modalWarnCount results = 0
  · rw [if_pos h]
    simp [h.1, h.2]
  · rw [if_neg h]
    by_cases hf : modalFailedCount results > 0 <;>
      by_cases hw : modalWarnCount results > 0 <;>
        simp [hf, hw] <;> omega

/-- Claim C2, counterexample: a remediation result whose execution layer
reports success while its verification status is FAIL still flips the
matching item's displayed status to PASS — execution success alone
suffices, conflating the two layers. -/
theorem c2_remediation_conflation_counterexample :
    successButFailVerify.rstatus = some "FAIL" ∧
    successButFailVerify.success = some true ∧
    applyRemediationUpdate [successButFailVerify] failedCatalog
      = [BSection.mk "section1" "Control Plane Components"
          [BenchmarkItem.mk "1.1.1" "Ensure API server pod file permissions" "desc" "Automated"
            true (some "PASS") none]] := by decide

/-- Claim C2 as amended: an item's displayed status becomes PASS when a
matching remediation result reports verification PASS **or** execution
success (`success === true`) — so execution-layer success alone forces
PASS even when the verification status is non-PASS; the two layers are
conflated by the update. -/
theorem c2_remediation_update_amended :
    ∀ (results : List RemediationResult) (sections : List BSection)
      (sec : BSection) (item : BenchmarkItem),
      sec ∈ applyRemediationUpdate results sections → item ∈ sec.items →
      (∃ r ∈ results, r.checkId = some item.id ∧
        (r.rstatus = some "PASS" ∨ r.success = some true)) →
      item.status = some "PASS" := by
  intro results sections sec item hsec hitem hr
  obtain ⟨r, hrmem, hrid, hrcond⟩ := hr
  have hpass : some item.id ∈ remPassedIds results := by
    refine List.mem_map.mpr ⟨r, List.mem_filter.mpr ⟨hrmem, ?_⟩, hrid⟩
    rcases hrcond with h | h <;> simp [h]
  have hlen : (remPassedIds results).length > 0 := List.length_pos.mpr
    (fun he => by rw [he] at hpass; exact absurd hpass (List.not_mem_nil _))
  unfold applyRemediationUpdate at hsec
  rw [if_pos (Or.inl hlen)] at hsec
  obtain ⟨sec₀, _, rfl⟩ := List.mem_map.mp hsec
  obtain ⟨item₀, _, hup⟩ := List.mem_map.mp hitem
  by_cases h0 : some item₀.id ∈ remPassedIds results
  · rw [if_pos h0] at hup
    rw [← hup]
  · rw [if_neg h0] at hup
    by_cases h1 : some item₀.id ∈ remFailedIds results
    · rw [if_pos h1] at hup
      have : item.id = item₀.id := by rw [← hup]
      rw [this] at hpass
      exact absurd hpass h0
    · rw [if_neg h1] at hup
      have : item.id = item₀.id := by rw [← hup]
      rw [this] at hpass
      exact absurd hpass h0

/-- Witness for the amended C2: applying the update for the concrete
success-but-FAIL result turns the concrete catalog item PASS. -/
theorem c2_remediation_update_amended_witness :
    (BenchmarkItem.mk "1.1.1" "Ensure API server pod file permissions" "desc" "Automated"
      true (some "PASS") none).status = some "PASS" := by
  refine c2_remediation_update_amended [successButFailVerify] failedCatalog
    (BSection.mk "section1" "Control Plane Components"
      [BenchmarkItem.mk "1.1.1" "Ensure API server pod file permissions" "desc" "Automated"
        true (some "PASS") none])
    (BenchmarkItem.mk "1.1.1" "Ensure API server pod file permissions" "desc" "Automated"
      true (some "PASS") none) ?_ ?_ ?_
  · rw [show applyRemediationUpdate [successButFailVerify] failedCatalog
        = [BSection.mk "section1" "Control Plane Components"
            [BenchmarkItem.mk "1.1.1" "Ensure API server pod file permissions" "desc" "Automated"
              true (some "PASS") none]] from by decide]
    exact List.mem_singleton.mpr rfl
  · exact List.mem_singleton.mpr rfl
  · exact ⟨successButFailVerify, List.mem_singleton.mpr rfl, by decide, Or.inr (by decide)⟩

theorem forall₂_map_self {α β : Type} (R : α → β → Prop) (f : α → β) :
    ∀ l : List α, (∀ x ∈ l, R x (f x)) → List.Forall₂ R l (l.map f) := by
  intro l
  induction l with
  | nil => intro _; exact List.Forall₂.nil
  | cons a l' ih =>
    intro h
    exact List.Forall₂.cons (h a (List.mem_cons_self a l'))
      (ih fun x hx => h x (List.mem_cons_of_mem a hx))

/-- Claim C10: toggling an item id rewrites the catalog
section-by-section and item-by-item — an item with the toggled id
changes only its `selected` flag (negated), every item with a different
id is returned unchanged, and every section keeps its id, title and item
ordering. -/
theorem c10_toggle_item_frame :
    ∀ (itemId : String) (sections : List BSection),
      List.Forall₂ (fun sec sec' =>
        sec'.id = sec.id ∧ sec'.title = sec.title ∧
        List.Forall₂ (fun item item' =>
          if item.id = itemId then
            item' = BenchmarkItem.mk item.id item.title item.description item.itype
              (!item.selected) item.status item.remediation
          else item' = item) sec.items sec'.items)
        sections (handleToggleItem itemId sections) := by
  intro itemId sections
  unfold handleToggleItem
  apply forall₂_map_self
  intro sec _
  refine ⟨rfl, rfl, ?_⟩
  apply forall₂_map_self
  intro item _
  by_cases h : item.id = itemId
  · simp [h]
  · simp [h]

/-- Claim C5, counterexample: against fetched statuses
running→running→completed, `pollScanStatus` invokes the progress
callback three times — once per poll tick including the completed one —
before resolving, not exactly twice as claimed. -/
theorem c5_poll_progress_counterexample :
    pollScanStatusRun
        [PollFetch.mk "running" 30, PollFetch.mk "running" 60, PollFetch.mk "completed" 100] 0
      = (3, PollOutcome.resolved (PollFetch.mk "completed" 100)) ∧
    (pollScanStatusRun
        [PollFetch.mk "running" 30, PollFetch.mk "running" 60, PollFetch.mk "completed" 100]
        0).1 ≠ 2 := by decide

/-- Claim C5 as amended: against statuses running→running→completed the
poll loop invokes the progress callback exactly three times (once per
fetch, the completed fetch included) and resolves with the completed
scan payload; against running→failed it invokes the callback twice and
rejects without ever resolving. -/
theorem c5_poll_termination_amended :
    ∀ p₁ p₂ p₃ : Int,
      pollScanStatusRun [PollFetch.mk "running" p₁, PollFetch.mk "running" p₂,
          PollFetch.mk "completed" p₃] 0
        = (3, PollOutcome.resolved (PollFetch.mk "completed" p₃)) ∧
      pollScanStatusRun [PollFetch.mk "running" p₁, PollFetch.mk "failed" p₂] 0
        = (2, PollOutcome.rejected) := by
  intro p₁ p₂ p₃
  exact ⟨rfl, rfl⟩

theorem jsOr_pos (a b : Option String) (h : truthyS a = true) : jsOr a b = a := by
  simp [jsOr, h]

theorem jsOr_neg (a b : Option String) (h : truthyS a = false) : jsOr a b = b := by
  simp [jsOr, h]

theorem jsOrStr_pos (a : Option String) (d : String) (h : truthyS a = true) :
    jsOrStr a d = a.getD "" := by
  cases a with
  | none => simp [truthyS] at h
  | some s =>
    simp only [truthyS, Bool.not_eq_true'] at h
    simp [jsOrStr, h]

theorem jsOrStr_neg (a : Option String) (d : String) (h : truthyS a = false) :
    jsOrStr a d = d := by
  cases a with
  | none => rfl
  | some s =>
    have hs : s.isEmpty = true := by
      simp only [truthyS] at h
      simpa using h
    simp [jsOrStr, hs]

/-- Claim C8: for every non-success response the thrown message is
extracted in priority order from `error`, then `message`, then
`details.error`, then `details.ssh_error`, then the synthesized
permission-denied explanation when `details.output` contains
"Permission denied", and otherwise is the generic "API request failed"
(a present-but-empty field is falsy and skipped, as in the source). -/
theorem c8_error_extraction_priority :
    ∀ b : RespBody,
      (truthyS b.rerror = true → extractErrorMessage b = b.rerror.getD "") ∧
      (truthyS b.rerror = false → truthyS b.message = true →
        extractErrorMessage b = b.message.getD "") ∧
      (truthyS b.rerror = false → truthyS b.message = false →
        truthyS (b.details.bind fun d => d.derror) = true →
        extractErrorMessage b = (b.details.bind fun d => d.derror).getD "") ∧
      (truthyS b.rerror = false → truthyS b.message = false →
        truthyS (b.details.bind fun d => d.derror) = false →
        truthyS (b.details.bind fun d => d.ssh_error) = true →
        extractErrorMessage b = (b.details.bind fun d => d.ssh_error).getD "") ∧
      (truthyS b.rerror = false → truthyS b.message = false →
        truthyS (b.details.bind fun d => d.derror) = false →
        truthyS (b.details.bind fun d => d.ssh_error) = false →
        permDenCand b = some permissionDeniedMsg →
        extractErrorMessage b = permissionDeniedMsg) ∧
      (truthyS b.rerror = false → truthyS b.message = false →
        truthyS (b.details.bind fun d => d.derror) = false →
        truthyS (b.details.bind fun d => d.ssh_error) = false →
        permDenCand b = none →
        extractErrorMessage b = "API request failed") := by
  intro b
  refine ⟨?_, ?_, ?_, ?_, ?_, ?_⟩
  · intro h1
    rw [extractErrorMessage, jsOr_pos _ _ h1, jsOrStr_pos _ _ h1]
  · intro h1 h2
    rw [extractErrorMessage, jsOr_neg _ _ h1, jsOr_pos _ _ h2, jsOrStr_pos _ _ h2]
  · intro h1 h2 h3
    rw [extractErrorMessage, jsOr_neg _ _ h1, jsOr_neg _ _ h2, jsOr_pos _ _ h3,
      jsOrStr_pos _ _ h3]
  · intro h1 h2 h3 h4
    rw [extractErrorMessage, jsOr_neg _ _ h1, jsOr_neg _ _ h2, jsOr_neg _ _ h3,
      jsOr_pos _ _ h4, jsOrStr_pos _ _ h4]
  · intro h1 h2 h3 h4 h5
    rw [extractErrorMessage, jsOr_neg _ _ h1, jsOr_neg _ _ h2, jsOr_neg _ _ h3,
      jsOr_neg _ _ h4, h5, jsOrStr_pos _ _ (by decide)]
    rfl
  · intro h1 h2 h3 h4 h5
    rw [extractErrorMessage, jsOr_neg _ _ h1, jsOr_neg _ _ h2, jsOr_neg _ _ h3,
      jsOr_neg _ _ h4, h5]
    rfl

/-- Witness for C8: the permission-denied synthesis fires on a concrete
body carrying only a matching `details.output`, and the generic message
is produced on an empty body. -/
theorem c8_error_extraction_priority_witness :
    extractErrorMessage sshDeniedBody = permissionDeniedMsg ∧
    extractErrorMessage (RespBody.mk none none none) = "API request failed" :=
  ⟨(c8_error_extraction_priority sshDeniedBody).2.2.2.2.1 (by decide) (by decide) (by decide)
      (by decide) (by decide),
   (c8_error_extraction_priority (RespBody.mk none none none)).2.2.2.2.2 (by decide) (by decide)
      (by decide) (by decide) (by decide)⟩

/-- Claim C3, counterexample: with no audit events and two qualifying
scans from different nodes whose shared check moved FAIL→PASS, the
dashboard counts one remediated check — the code never compares node
names — while the claimed union (same node required) is empty. -/
theorem c3_remediated_count_counterexample :
    scanNodeA.nodeName ≠ scanNodeB.nodeName ∧
    remediatedChecksStat [] [scanNodeA, scanNodeB] = 1 ∧
    specRemediatedChecksStat [] [scanNodeA, scanNodeB] = 0 := by decide

theorem addUnique_nodup (l : List (Option String)) (x : Option String) (h : l.Nodup) :
    (addUnique l x).Nodup := by
  unfold addUnique
  by_cases hx : x ∈ l
  · rw [if_pos hx]
    exact h
  · rw [if_neg hx]
    rw [List.nodup_append]
    exact ⟨h, List.nodup_singleton x, fun a ha hb => hx ((List.mem_singleton.mp hb) ▸ ha)⟩

theorem addUnique_toFinset (l : List (Option String)) (x : Option String) :
    (addUnique l x).toFinset = insert x l.toFinset := by
  unfold addUnique
  by_cases hx : x ∈ l
  · rw [if_pos hx]
    exact (Finset.insert_eq_self.mpr (List.mem_toFinset.mpr hx)).symm
  · rw [if_neg hx]
    ext a
    simp [List.mem_toFinset, or_comm]

theorem foldl_addUnique_spec :
    ∀ (xs acc : List (Option String)), acc.Nodup →
      (xs.foldl addUnique acc).Nodup ∧
      (xs.foldl addUnique acc).toFinset = acc.toFinset ∪ xs.toFinset := by
  intro xs
  induction xs with
  | nil => intro acc h; exact ⟨h, by simp⟩
  | cons x xs' ih =>
    intro acc h
    rw [List.foldl_cons]
    obtain ⟨h1, h2⟩ := ih (addUnique acc x) (addUnique_nodup acc x h)
    refine ⟨h1, ?_⟩
    rw [h2, addUnique_toFinset]
    ext a
    simp only [Finset.mem_union, Finset.mem_insert, List.mem_toFinset, List.mem_cons]
    tauto

theorem foldl_condAdd {α : Type} (g : α → Option (Option String)) :
    ∀ (l : List α) (acc : List (Option String)),
      l.foldl (fun a e =>
        match g e with
        | some x => addUnique a x
        | none => a) acc
        = (l.filterMap g).foldl addUnique acc := by
  intro l
  induction l with
  | nil => intro acc; rfl
  | cons e l' ih =>
    intro acc
    rw [List.foldl_cons]
    cases hg : g e with
    | none => simp [List.filterMap_cons, hg, ih]
    | some x => simp [List.filterMap_cons, hg, ih]

theorem remStat_nil (events : List DAuditEvent) :
    remediatedChecksStat events []
      = ((events.filter qualifyingRemediation).foldl
          (fun acc e =>
            match e.checkId with
            | some c => if !c.isEmpty then addUnique acc (some c) else acc
            | none => acc) []).length := rfl

theorem remStat_one (events : List DAuditEvent) (latest : DScan) :
    remediatedChecksStat events [latest]
      = ((events.filter qualifyingRemediation).foldl
          (fun acc e =>
            match e.checkId with
            | some c => if !c.isEmpty then addUnique acc (some c) else acc
            | none => acc) []).length := rfl

theorem remStat_cons (events : List DAuditEvent) (latest prev : DScan) (rest : List DScan) :
    remediatedChecksStat events (latest :: prev :: rest)
      = ((buildMap latest.results).foldl (fun acc kv =>
          if kv.2.status == some "PASS" then
            match mapGet (buildMap prev.results) kv.1 with
            | some p =>
              if p.status == some "FAIL" && !isManualDash kv.2 then addUnique acc kv.1 else acc
            | none => acc
          else acc)
          ((events.filter qualifyingRemediation).foldl
            (fun acc e =>
              match e.checkId with
              | some c => if !c.isEmpty then addUnique acc (some c) else acc
              | none => acc) [])).length := rfl

theorem s0_fold_eq (events : List DAuditEvent) :
    (events.filter qualifyingRemediation).foldl
      (fun acc e =>
        match e.checkId with
        | some c => if !c.isEmpty then addUnique acc (some c) else acc
        | none => acc) []
      = (remAuditIds events).foldl addUnique [] := by
  have hbody : (fun (acc : List (Option String)) (e : DAuditEvent) =>
      match e.checkId with
      | some c => if !c.isEmpty then addUnique acc (some c) else acc
      | none => acc)
      = (fun acc e =>
        match (match e.checkId with
          | some c => if !c.isEmpty then some (some c) else none
          | none => none) with
        | some x => addUnique acc x
        | none => acc) := by
    funext acc e
    cases e.checkId with
    | none => rfl
    | some c => by_cases hc : c.isEmpty <;> simp [hc]
  rw [hbody, foldl_condAdd]
  rfl

theorem moved_fold_eq (latest prev : DScan) (acc : List (Option String)) (rest : List DScan) :
    (buildMap latest.results).foldl (fun acc kv =>
      if kv.2.status == some "PASS" then
        match mapGet (buildMap prev.results) kv.1 with
        | some p =>
          if p.status == some "FAIL" && !isManualDash kv.2 then addUnique acc kv.1 else acc
        | none => acc
      else acc) acc
      = (remScanMovedKeys (latest :: prev :: rest)).foldl addUnique acc := by
  have hbody : (fun (acc : List (Option String)) (kv : Option String × JSResult) =>
      if kv.2.status == some "PASS" then
        match mapGet (buildMap prev.results) kv.1 with
        | some p =>
          if p.status == some "FAIL" && !isManualDash kv.2 then addUnique acc kv.1 else acc
        | none => acc
      else acc)
      = (fun acc kv =>
        match (if kv.2.status == some "PASS" then
            match mapGet (buildMap prev.results) kv.1 with
            | some p =>
              if p.status == some "FAIL" && !isManualDash kv.2 then some kv.1 else none
            | none => none
          else none) with
        | some x => addUnique acc x
        | none => acc) := by
    funext acc kv
    by_cases h1 : (kv.2.status == some "PASS") = true
    · rw [if_pos h1, if_pos h1]
      cases mapGet (buildMap prev.results) kv.1 with
      | none => rfl
      | some p =>
        by_cases h2 : (p.status == some "FAIL" && !isManualDash kv.2) = true <;> simp [h2]
    · rw [if_neg h1, if_neg h1]
  rw [hbody, foldl_condAdd]
  rfl

/-- Claim C3 as amended: `remediatedChecks` equals the number of
distinct entries among (a) the truthy checkIds of qualifying remediation
audit events and (b) — when more than one qualifying scan exists — the
result-map keys that are PASS in the most recent scan, FAIL in the
second-most-recent scan and not Manual in the most recent result,
regardless of the scans' nodes, deduplicated by checkId alone (node
names play no part). -/
theorem c3_remediated_checks_amended :
    ∀ (events : List DAuditEvent) (scans : List DScan),
      remediatedChecksStat events scans
        = (remAuditIds events ++ remScanMovedKeys scans).toFinset.card := by
  intro events scans
  obtain ⟨hnd0, hfs0⟩ :=
    foldl_addUnique_spec (remAuditIds events) [] List.nodup_nil
  rcases scans with _ | ⟨latest, _ | ⟨prev, rest⟩⟩
  · rw [remStat_nil, s0_fold_eq]
    rw [← List.toFinset_card_of_nodup hnd0, hfs0]
    simp [remScanMovedKeys]
  · rw [remStat_one, s0_fold_eq]
    rw [← List.toFinset_card_of_nodup hnd0, hfs0]
    simp [remScanMovedKeys]
  · rw [remStat_cons, s0_fold_eq, moved_fold_eq latest prev _ rest]
    obtain ⟨hnd1, hfs1⟩ :=
      foldl_addUnique_spec (remScanMovedKeys (latest :: prev :: rest))
        ((remAuditIds events).foldl addUnique []) hnd0
    rw [← List.toFinset_card_of_nodup hnd1, hfs1, hfs0, List.toFinset_append]
    simp
